import Mathlib

/-!
Verification of the GPS track-processing core of the StrideUp repository:
the Haversine great-circle distance primitive, the noise-filtered distance
accumulator (`processLocation` in `app/hooks/use-location-tracking.ts`),
and the in-order waypoint progress checker (`checkWaypointProgress`).

JavaScript numbers are modelled as real numbers; `Math.atan2` is modelled
by its mathematical definition, case-split exactly as the JS builtin.
-/

namespace StrideUp

open Classical

/-- Model of JavaScript `Math.atan2 y x` (signed-zero distinctions ignored,
which never matter here because both arguments are square roots). -/
noncomputable def atan2 (y x : ℝ) : ℝ :=
  if 0 < x then Real.arctan (y / x)
  else if x < 0 then
    (if 0 ≤ y then Real.arctan (y / x) + Real.pi else Real.arctan (y / x) - Real.pi)
  else if 0 < y then Real.pi / 2
  else if y < 0 then -(Real.pi / 2)
  else 0

/-- `GPSPoint` of `src/unnamed/part_001`: latitude and longitude in degrees. -/
structure GPSPoint where
  latitude : ℝ
  longitude : ℝ

/-- `toRad` helper of `haversineMeters` in `src/unnamed/part_001`. -/
noncomputable def toRad (deg : ℝ) : ℝ := deg * Real.pi / 180

/-- `haversineMeters` of `src/unnamed/part_001`:
Haversine distance in meters between two GPS points, R = 6371e3. -/
noncomputable def haversineMeters (a b : GPSPoint) : ℝ :=
  let R : ℝ := 6371e3
  let dLat := toRad (b.latitude - a.latitude)
  let dLon := toRad (b.longitude - a.longitude)
  let sinLat := Real.sin (dLat / 2)
  let sinLon := Real.sin (dLon / 2)
  let h := sinLat * sinLat +
    Real.cos (toRad a.latitude) * Real.cos (toRad b.latitude) * sinLon * sinLon
  R * 2 * atan2 (Real.sqrt h) (Real.sqrt (1 - h))

/-- The fields of the `GPSPoint` interface of `app/services/activityService`
used by the accumulator: coordinates plus the nullable `accuracy`
(`timestamp`, `elevation`, `speed`, `heading` are passed through unused). -/
structure TrackPoint where
  latitude : ℝ
  longitude : ℝ
  accuracy : Option ℝ

/-- `calculateDistance` of `app/hooks/use-location-tracking.ts` (lines 99-112):
the same Haversine formula, written over the richer sample type. -/
noncomputable def calculateDistance (point1 point2 : TrackPoint) : ℝ :=
  let R : ℝ := 6371e3
  let phi1 := point1.latitude * Real.pi / 180
  let phi2 := point2.latitude * Real.pi / 180
  let dPhi := (point2.latitude - point1.latitude) * Real.pi / 180
  let dLam := (point2.longitude - point1.longitude) * Real.pi / 180
  let a := Real.sin (dPhi / 2) * Real.sin (dPhi / 2) +
    Real.cos phi1 * Real.cos phi2 * Real.sin (dLam / 2) * Real.sin (dLam / 2)
  let c := 2 * atan2 (Real.sqrt a) (Real.sqrt (1 - a))
  R * c

/-- The accuracy rejection condition of `processLocation`
(`if (newPoint.accuracy && newPoint.accuracy > 50)`): the sample is dropped
when `accuracy` is present, truthy (nonzero), and greater than 50. -/
def accuracyRejected (acc : Option ℝ) : Prop :=
  match acc with
  | none => False
  | some a => a ≠ 0 ∧ a > 50

/-- The accumulation state of `useLocationTracking`: the running `distance`
of the React state together with the `lastLocation` ref (the anchor). -/
structure LocationTrackingState where
  distance : ℝ
  lastLocation : Option TrackPoint

/-- `resetTracking` of `app/hooks/use-location-tracking.ts`: distance 0 and
no anchor; this is also the state at session start. -/
def resetTracking : LocationTrackingState := ⟨0, none⟩

/-- `processLocation` of `app/hooks/use-location-tracking.ts` (lines 115-162),
restricted to the accumulation state it mutates: reject inaccurate points,
add the segment from the anchor only when `2 < segment < 100`, and advance
the anchor on every non-rejected sample. -/
noncomputable def processLocation (st : LocationTrackingState) (newPoint : TrackPoint) :
    LocationTrackingState :=
  if accuracyRejected newPoint.accuracy then st
  else
    let newDistance :=
      match st.lastLocation with
      | some last =>
        let segmentDistance := calculateDistance last newPoint
        if segmentDistance > 2 ∧ segmentDistance < 100 then st.distance + segmentDistance
        else st.distance
      | none => st.distance
    ⟨newDistance, some newPoint⟩

/-- The fields of `RouteWaypoint` of `app/services/challengeService.ts`
read by the progress checker (`order`, `waypoint_type`, `name` unused). -/
structure RouteWaypoint where
  latitude : ℝ
  longitude : ℝ
  radius_meters : ℝ

/-- The result record of `checkWaypointProgress` in `src/unnamed/part_001`. -/
structure WaypointProgress where
  reachedIndex : ℤ
  allCleared : Bool
  reachedWaypoints : List Bool

/-- One iteration of the `for (const point of gpsTrack)` loop of
`checkWaypointProgress`: state is the pair of the `reachedWaypoints` array
and the `nextRequired` pointer. The `break` when
`nextRequired >= waypoints.length` is modelled by leaving the state fixed,
which is equivalent because the pointer never decreases. -/
noncomputable def wpStep (waypoints : List RouteWaypoint) (st : List Bool × ℕ)
    (point : GPSPoint) : List Bool × ℕ :=
  if h : st.2 < waypoints.length then
    let wp := waypoints.get ⟨st.2, h⟩
    let dist := haversineMeters point ⟨wp.latitude, wp.longitude⟩
    if dist ≤ wp.radius_meters then (st.1.set st.2 true, st.2 + 1) else st
  else st

/-- `checkWaypointProgress` of `src/unnamed/part_001` (lines 32-63): fold the
loop body over the track starting from all-false flags and pointer 0. -/
noncomputable def checkWaypointProgress (waypoints : List RouteWaypoint)
    (gpsTrack : List GPSPoint) : WaypointProgress :=
  let st := gpsTrack.foldl (wpStep waypoints) (waypoints.map (fun _ => false), 0)
  ⟨(st.2 : ℤ) - 1, decide (waypoints.length ≤ st.2), st.1⟩

/-- Modelled from the spec (§4.3, algorithm steps 1-2): the final value of the
single forward pointer `nextRequired` after scanning the samples in order,
advancing by one exactly when the current sample's great-circle distance to
the currently required waypoint is within that waypoint's radius, and
stopping once the pointer passes the last waypoint. -/
noncomputable def specNextRequired (waypoints : List RouteWaypoint) :
    List GPSPoint → ℕ → ℕ
  | [], n => n
  | point :: rest, n =>
    if h : n < waypoints.length then
      let wp := waypoints.get ⟨n, h⟩
      if haversineMeters point ⟨wp.latitude, wp.longitude⟩ ≤ wp.radius_meters then
        specNextRequired waypoints rest (n + 1)
      else specNextRequired waypoints rest n
    else n

/-- The list of flags whose entry `i` is true exactly when `i < n`:
a length-`len` prefix of `n` trues. -/
def prefixFlags (len n : ℕ) : List Bool :=
  (List.range len).map (fun i => decide (i < n))

/-- Modelled from the spec (§4.3, steps 3-4 and §3): `reachedIndex` is
`nextRequired - 1`, `allCleared` holds exactly when the pointer passed the
last waypoint, and flag `i` is set exactly when waypoint `i` was cleared,
i.e. when the pointer moved beyond `i`. -/
noncomputable def specCheckWaypointProgress (waypoints : List RouteWaypoint)
    (gpsTrack : List GPSPoint) : WaypointProgress :=
  let n := specNextRequired waypoints gpsTrack 0
  ⟨(n : ℤ) - 1, decide (waypoints.length ≤ n), prefixFlags waypoints.length n⟩

theorem wpStep_pair (wps : List RouteWaypoint) (flags : List Bool) (n : ℕ) (p : GPSPoint) :
    wpStep wps (flags, n) p =
      if h : n < wps.length then
        (if haversineMeters p ⟨(wps.get ⟨n, h⟩).latitude, (wps.get ⟨n, h⟩).longitude⟩ ≤
            (wps.get ⟨n, h⟩).radius_meters
         then (flags.set n true, n + 1) else (flags, n))
      else (flags, n) := rfl

theorem foldl_wpStep_stuck (wps : List RouteWaypoint) (track : List GPSPoint) :
    ∀ (flags : List Bool) (n : ℕ), wps.length ≤ n →
      track.foldl (wpStep wps) (flags, n) = (flags, n) := by
  induction track with
  | nil => intro flags n _; rfl
  | cons p rest ih =>
    intro flags n h
    rw [List.foldl_cons, wpStep_pair, dif_neg (by omega)]
    exact ih flags n h

theorem foldl_wpStep_snd (wps : List RouteWaypoint) (track : List GPSPoint) :
    ∀ (flags : List Bool) (n : ℕ),
      (track.foldl (wpStep wps) (flags, n)).2 = specNextRequired wps track n := by
  induction track with
  | nil => intro flags n; simp [specNextRequired]
  | cons p rest ih =>
    intro flags n
    rw [List.foldl_cons, wpStep_pair]
    simp only [specNextRequired]
    by_cases h : n < wps.length
    · rw [dif_pos h, dif_pos h]
      by_cases hd : haversineMeters p ⟨(wps.get ⟨n, h⟩).latitude, (wps.get ⟨n, h⟩).longitude⟩ ≤
          (wps.get ⟨n, h⟩).radius_meters
      · rw [if_pos hd, if_pos hd]
        exact ih _ _
      · rw [if_neg hd, if_neg hd]
        exact ih _ _
    · rw [dif_neg h, dif_neg h, foldl_wpStep_stuck wps rest flags n (by omega)]

theorem prefixFlags_length (len n : ℕ) : (prefixFlags len n).length = len := by
  simp [prefixFlags]

theorem prefixFlags_set (len n : ℕ) (_h : n < len) :
    (prefixFlags len n).set n true = prefixFlags len (n + 1) := by
  apply List.ext_getElem
  · simp [prefixFlags]
  · intro i h1 h2
    have hi : i < len := by simpa [prefixFlags] using h2
    simp only [prefixFlags, List.getElem_set, List.getElem_map, List.getElem_range]
    by_cases hni : n = i
    · subst hni; simp
    · rw [if_neg hni]
      have hiff : (i < n) ↔ (i < n + 1) := by omega
      simp [hiff]

theorem map_false_eq_prefixFlags (wps : List RouteWaypoint) :
    wps.map (fun _ => false) = prefixFlags wps.length 0 := by
  apply List.ext_getElem
  · simp [prefixFlags]
  · intro i h1 h2
    simp [prefixFlags]

theorem foldl_wpStep_fst (wps : List RouteWaypoint) (track : List GPSPoint) :
    ∀ n : ℕ,
      (track.foldl (wpStep wps) (prefixFlags wps.length n, n)).1
        = prefixFlags wps.length (specNextRequired wps track n) := by
  induction track with
  | nil => intro n; simp [specNextRequired]
  | cons p rest ih =>
    intro n
    rw [List.foldl_cons, wpStep_pair]
    simp only [specNextRequired]
    by_cases h : n < wps.length
    · rw [dif_pos h, dif_pos h]
      by_cases hd : haversineMeters p ⟨(wps.get ⟨n, h⟩).latitude, (wps.get ⟨n, h⟩).longitude⟩ ≤
          (wps.get ⟨n, h⟩).radius_meters
      · rw [if_pos hd, if_pos hd, prefixFlags_set _ _ h]
        exact ih (n + 1)
      · rw [if_neg hd, if_neg hd]
        exact ih n
    · rw [dif_neg h, dif_neg h, foldl_wpStep_stuck wps rest _ n (by omega)]

theorem specNextRequired_le (wps : List RouteWaypoint) (track : List GPSPoint) :
    ∀ n : ℕ, n ≤ wps.length → specNextRequired wps track n ≤ wps.length := by
  induction track with
  | nil => intro n h; simpa [specNextRequired] using h
  | cons p rest ih =>
    intro n h
    simp only [specNextRequired]
    by_cases h1 : n < wps.length
    · rw [dif_pos h1]
      by_cases hd : haversineMeters p ⟨(wps.get ⟨n, h1⟩).latitude, (wps.get ⟨n, h1⟩).longitude⟩ ≤
          (wps.get ⟨n, h1⟩).radius_meters
      · rw [if_pos hd]; exact ih _ (by omega)
      · rw [if_neg hd]; exact ih _ h
    · rw [dif_neg h1]; exact h

theorem specNextRequired_le_add (wps : List RouteWaypoint) (track : List GPSPoint) :
    ∀ n : ℕ, specNextRequired wps track n ≤ n + track.length := by
  induction track with
  | nil => intro n; simp [specNextRequired]
  | cons p rest ih =>
    intro n
    simp only [specNextRequired, List.length_cons]
    by_cases h1 : n < wps.length
    · rw [dif_pos h1]
      by_cases hd : haversineMeters p ⟨(wps.get ⟨n, h1⟩).latitude, (wps.get ⟨n, h1⟩).longitude⟩ ≤
          (wps.get ⟨n, h1⟩).radius_meters
      · rw [if_pos hd]
        have := ih (n + 1)
        omega
      · rw [if_neg hd]
        have := ih n
        omega
    · rw [dif_neg h1]; omega

theorem count_true_prefixFlags (len n : ℕ) :
    (prefixFlags len n).count true = min n len := by
  induction len with
  | zero => simp [prefixFlags]
  | succ len ih =>
    have hsplit : prefixFlags (len + 1) n
        = prefixFlags len n ++ [decide (len < n)] := by
      simp [prefixFlags, List.range_succ]
    rw [hsplit, List.count_append]
    rw [ih]
    by_cases h : len < n
    · simp [h]
      omega
    · simp [h]
      omega

theorem prefixFlags_get (len n i : ℕ) (h : i < (prefixFlags len n).length) :
    (prefixFlags len n).get ⟨i, h⟩ = decide (i < n) := by
  simp [prefixFlags]

/-- C1: `checkWaypointProgress` computes its result by the sequential
single-pass in-order algorithm of the spec: it equals the scan that moves a
single forward pointer `nextRequired` over the samples in order, clearing
the currently required waypoint exactly when the sample is within its
radius (inclusive), never marking a later waypoint early, returning the
index of the last cleared waypoint (or -1), `allCleared` iff the pointer
passed the last waypoint, and flags that record exactly the cleared
prefix. -/
theorem checkWaypointProgress_eq_specScan (wps : List RouteWaypoint) (track : List GPSPoint) :
    checkWaypointProgress wps track = specCheckWaypointProgress wps track := by
  simp only [checkWaypointProgress, specCheckWaypointProgress, map_false_eq_prefixFlags,
    foldl_wpStep_snd, foldl_wpStep_fst]

/-- C7: with an empty waypoint list `checkWaypointProgress` returns
`reachedIndex = -1` and `allCleared = true` for every track, and with an
empty track it returns `reachedIndex = -1` and `allCleared` true exactly
when the waypoint list is empty; no error is possible. -/
theorem checkWaypointProgress_empty :
    (∀ track : List GPSPoint,
      checkWaypointProgress [] track = ⟨-1, true, []⟩) ∧
    (∀ wps : List RouteWaypoint,
      (checkWaypointProgress wps []).reachedIndex = -1 ∧
      ((checkWaypointProgress wps []).allCleared = true ↔ wps.length = 0)) := by
  constructor
  · intro track
    have h0 : track.foldl (wpStep []) (([] : List Bool), 0) = (([] : List Bool), 0) :=
      foldl_wpStep_stuck [] track [] 0 (by simp)
    simp [checkWaypointProgress, h0]
  · intro wps
    simp [checkWaypointProgress, Nat.le_zero]

/-- C9: each track sample advances the progress pointer by at most one, so
`reachedIndex + 1` never exceeds the number of samples in the track. -/
theorem waypoint_pointer_advances_at_most_one (wps : List RouteWaypoint)
    (track : List GPSPoint) :
    ((checkWaypointProgress wps track).reachedIndex + 1 ≤ (track.length : ℤ)) ∧
    (∀ (flags : List Bool) (n : ℕ) (p : GPSPoint),
      (wpStep wps (flags, n) p).2 ≤ n + 1) := by
  constructor
  · have h := foldl_wpStep_snd wps track (wps.map fun _ => false) 0
    have h2 := specNextRequired_le_add wps track 0
    simp only [checkWaypointProgress, h]
    omega
  · intro flags n p
    rw [wpStep_pair]
    by_cases h : n < wps.length
    · rw [dif_pos h]
      by_cases hd : haversineMeters p ⟨(wps.get ⟨n, h⟩).latitude, (wps.get ⟨n, h⟩).longitude⟩ ≤
          (wps.get ⟨n, h⟩).radius_meters
      · rw [if_pos hd]
      · rw [if_neg hd]; omega
    · rw [dif_neg h]; omega

/-- C10: the three fields of the `checkWaypointProgress` result are mutually
consistent: the flags list has exactly one entry per waypoint and is a
prefix of trues (flag `i` is true iff `i ≤ reachedIndex`), `reachedIndex + 1`
equals the number of true flags, `reachedIndex` lies between `-1` and
`waypoints.length - 1`, and `allCleared` holds iff every flag is true. -/
theorem progress_result_consistent (wps : List RouteWaypoint) (track : List GPSPoint) :
    (checkWaypointProgress wps track).reachedWaypoints.length = wps.length ∧
    (∀ (i : ℕ) (h : i < (checkWaypointProgress wps track).reachedWaypoints.length),
      ((checkWaypointProgress wps track).reachedWaypoints.get ⟨i, h⟩ = true ↔
        (i : ℤ) ≤ (checkWaypointProgress wps track).reachedIndex)) ∧
    ((checkWaypointProgress wps track).reachedIndex + 1
      = ((checkWaypointProgress wps track).reachedWaypoints.count true : ℤ)) ∧
    (-1 ≤ (checkWaypointProgress wps track).reachedIndex ∧
      (checkWaypointProgress wps track).reachedIndex ≤ (wps.length : ℤ) - 1) ∧
    ((checkWaypointProgress wps track).allCleared = true ↔
      ∀ f ∈ (checkWaypointProgress wps track).reachedWaypoints, f = true) := by
  have hNle : specNextRequired wps track 0 ≤ wps.length :=
    specNextRequired_le wps track 0 (by omega)
  have hflags : (checkWaypointProgress wps track).reachedWaypoints
      = prefixFlags wps.length (specNextRequired wps track 0) := by
    simp only [checkWaypointProgress, map_false_eq_prefixFlags, foldl_wpStep_fst]
  have hidx : (checkWaypointProgress wps track).reachedIndex
      = (specNextRequired wps track 0 : ℤ) - 1 := by
    simp only [checkWaypointProgress, foldl_wpStep_snd]
  have hclear : (checkWaypointProgress wps track).allCleared
      = decide (wps.length ≤ specNextRequired wps track 0) := by
    simp only [checkWaypointProgress, foldl_wpStep_snd]
  refine ⟨?_, ?_, ?_, ?_, ?_⟩
  · rw [hflags, prefixFlags_length]
  · intro i h
    rw [List.get_of_eq hflags, prefixFlags_get, hidx]
    simp only [decide_eq_true_eq]
    omega
  · rw [hidx, hflags, count_true_prefixFlags, Nat.min_eq_left hNle]
    omega
  · rw [hidx]
    omega
  · rw [hclear, hflags]
    simp only [decide_eq_true_eq]
    constructor
    · intro hc f hf
      rcases List.mem_map.mp hf with ⟨i, hi, rfl⟩
      have : i < wps.length := List.mem_range.mp hi
      simp only [decide_eq_true_eq]
      omega
    · intro hall
      by_contra hlt
      push_neg at hlt
      have hmem : (false : Bool) ∈ prefixFlags wps.length (specNextRequired wps track 0) :=
        List.mem_map.mpr ⟨specNextRequired wps track 0,
          List.mem_range.mpr (by omega), by simp⟩
      exact absurd (hall false hmem) (by simp)

theorem progress_result_consistent_witness :
    (0 < (checkWaypointProgress [⟨0, 0, 10⟩] ([] : List GPSPoint)).reachedWaypoints.length) ∧
    ((checkWaypointProgress [⟨0, 0, 10⟩] ([] : List GPSPoint)).reachedWaypoints.get
        ⟨0, by norm_num [checkWaypointProgress]⟩ = true ↔
      (0 : ℤ) ≤ (checkWaypointProgress [⟨0, 0, 10⟩] ([] : List GPSPoint)).reachedIndex) := by
  refine ⟨by norm_num [checkWaypointProgress], ?_⟩
  exact (progress_result_consistent [⟨0, 0, 10⟩] []).2.1 0 (by norm_num [checkWaypointProgress])

/-- C2: when an anchor exists and the sample passes the accuracy filter, the
segment from the anchor is added to the total exactly when it lies strictly
inside the open interval (2, 100) meters; a segment of exactly 2 m or
exactly 100 m (or beyond) leaves the total unchanged. -/
theorem segment_filter_adds_iff_open_interval (st : LocationTrackingState)
    (last newPoint : TrackPoint)
    (hanchor : st.lastLocation = some last)
    (hacc : ¬ accuracyRejected newPoint.accuracy) :
    (2 < calculateDistance last newPoint → calculateDistance last newPoint < 100 →
      (processLocation st newPoint).distance
        = st.distance + calculateDistance last newPoint) ∧
    (calculateDistance last newPoint ≤ 2 →
      (processLocation st newPoint).distance = st.distance) ∧
    (100 ≤ calculateDistance last newPoint →
      (processLocation st newPoint).distance = st.distance) := by
  simp only [processLocation, if_neg hacc, hanchor]
  refine ⟨?_, ?_, ?_⟩
  · intro h1 h2
    rw [if_pos ⟨h1, h2⟩]
  · intro h1
    rw [if_neg (by rintro ⟨h2, _⟩; linarith)]
  · intro h1
    rw [if_neg (by rintro ⟨_, h2⟩; linarith)]

theorem segment_filter_adds_iff_open_interval_witness :
    ((⟨0, some ⟨0, 0, none⟩⟩ : LocationTrackingState).lastLocation = some ⟨0, 0, none⟩) ∧
    (¬ accuracyRejected (⟨0, 1, none⟩ : TrackPoint).accuracy) ∧
    ((2 < calculateDistance ⟨0, 0, none⟩ ⟨0, 1, none⟩ →
        calculateDistance ⟨0, 0, none⟩ ⟨0, 1, none⟩ < 100 →
        (processLocation ⟨0, some ⟨0, 0, none⟩⟩ ⟨0, 1, none⟩).distance
          = (0 : ℝ) + calculateDistance ⟨0, 0, none⟩ ⟨0, 1, none⟩) ∧
      (calculateDistance ⟨0, 0, none⟩ ⟨0, 1, none⟩ ≤ 2 →
        (processLocation ⟨0, some ⟨0, 0, none⟩⟩ ⟨0, 1, none⟩).distance = 0) ∧
      (100 ≤ calculateDistance ⟨0, 0, none⟩ ⟨0, 1, none⟩ →
        (processLocation ⟨0, some ⟨0, 0, none⟩⟩ ⟨0, 1, none⟩).distance = 0)) :=
  ⟨rfl, fun h => h,
    segment_filter_adds_iff_open_interval ⟨0, some ⟨0, 0, none⟩⟩ ⟨0, 0, none⟩ ⟨0, 1, none⟩
      rfl (fun h => h)⟩

/-- C3: a sample whose accuracy is present and strictly above 50 m leaves the
whole accumulator state unchanged (neither the total nor the anchor moves),
while a sample with accuracy exactly 50 is accepted and becomes the new
anchor: the rejection threshold is exclusive. -/
theorem accuracy_filter_rejects_above_50 (st : LocationTrackingState) (p : TrackPoint) :
    (∀ a : ℝ, p.accuracy = some a → 50 < a → processLocation st p = st) ∧
    (p.accuracy = some 50 → (processLocation st p).lastLocation = some p) := by
  constructor
  · intro a ha h50
    have hrej : accuracyRejected p.accuracy := by
      rw [ha]
      exact ⟨ne_of_gt (lt_trans (by norm_num) h50), h50⟩
    simp only [processLocation, if_pos hrej]
  · intro h50
    have hok : ¬ accuracyRejected p.accuracy := by
      rw [h50]
      rintro ⟨_, h⟩
      linarith
    simp only [processLocation, if_neg hok]

theorem accuracy_filter_rejects_above_50_witness :
    ((⟨2, 2, some 51⟩ : TrackPoint).accuracy = some 51 ∧ (50 : ℝ) < 51 ∧
      processLocation ⟨3, some ⟨0, 0, none⟩⟩ ⟨2, 2, some 51⟩ = ⟨3, some ⟨0, 0, none⟩⟩) ∧
    ((⟨2, 2, some 50⟩ : TrackPoint).accuracy = some 50 ∧
      (processLocation ⟨3, some ⟨0, 0, none⟩⟩ ⟨2, 2, some 50⟩).lastLocation
        = some ⟨2, 2, some 50⟩) :=
  ⟨⟨rfl, by norm_num,
      (accuracy_filter_rejects_above_50 ⟨3, some ⟨0, 0, none⟩⟩ ⟨2, 2, some 51⟩).1 51 rfl
        (by norm_num)⟩,
    ⟨rfl, (accuracy_filter_rejects_above_50 ⟨3, some ⟨0, 0, none⟩⟩ ⟨2, 2, some 50⟩).2 rfl⟩⟩

/-- C4: every sample that passes the accuracy filter becomes the new anchor,
whether or not its segment was counted towards the total. -/
theorem anchor_advances_regardless (st : LocationTrackingState) (last p : TrackPoint)
    (_hanchor : st.lastLocation = some last) (hacc : ¬ accuracyRejected p.accuracy) :
    (processLocation st p).lastLocation = some p := by
  simp only [processLocation, if_neg hacc]

theorem anchor_advances_regardless_witness :
    ((⟨5, some ⟨1, 1, none⟩⟩ : LocationTrackingState).lastLocation = some ⟨1, 1, none⟩) ∧
    (¬ accuracyRejected (⟨1, 2, none⟩ : TrackPoint).accuracy) ∧
    (processLocation ⟨5, some ⟨1, 1, none⟩⟩ ⟨1, 2, none⟩).lastLocation = some ⟨1, 2, none⟩ :=
  ⟨rfl, fun h => h,
    anchor_advances_regardless ⟨5, some ⟨1, 1, none⟩⟩ ⟨1, 1, none⟩ ⟨1, 2, none⟩
      rfl (fun h => h)⟩

/-- C5: over any session the running total is non-decreasing: each single
`processLocation` call leaves the distance greater than or equal to its
previous value, and hence any sequence of calls does too. -/
theorem totalDistance_monotone :
    (∀ (st : LocationTrackingState) (p : TrackPoint),
      st.distance ≤ (processLocation st p).distance) ∧
    (∀ (track : List TrackPoint) (st : LocationTrackingState),
      st.distance ≤ (track.foldl processLocation st).distance) := by
  have hstep : ∀ (st : LocationTrackingState) (p : TrackPoint),
      st.distance ≤ (processLocation st p).distance := by
    intro st p
    by_cases hacc : accuracyRejected p.accuracy
    · simp [processLocation, if_pos hacc]
    · simp only [processLocation, if_neg hacc]
      cases hl : st.lastLocation with
      | none => simp
      | some last =>
        show st.distance ≤
          if calculateDistance last p > 2 ∧ calculateDistance last p < 100
          then st.distance + calculateDistance last p else st.distance
        by_cases hseg : calculateDistance last p > 2 ∧ calculateDistance last p < 100
        · rw [if_pos hseg]
          linarith [hseg.1]
        · rw [if_neg hseg]
  refine ⟨hstep, ?_⟩
  intro track
  induction track with
  | nil => intro st; simp
  | cons p rest ih =>
    intro st
    rw [List.foldl_cons]
    exact le_trans (hstep st p) (ih (processLocation st p))

/-- C8: the first accepted sample of a fresh session becomes the anchor and
contributes zero distance: the resulting state has total 0 and anchor equal
to that sample. -/
theorem first_sample_anchor (p : TrackPoint) (hacc : ¬ accuracyRejected p.accuracy) :
    processLocation resetTracking p = ⟨0, some p⟩ := by
  simp only [processLocation, if_neg hacc, resetTracking]

theorem first_sample_anchor_witness :
    (¬ accuracyRejected (⟨0, 0, none⟩ : TrackPoint).accuracy) ∧
    processLocation resetTracking ⟨0, 0, none⟩ = ⟨0, some ⟨0, 0, none⟩⟩ :=
  ⟨fun h => h, first_sample_anchor ⟨0, 0, none⟩ (fun h => h)⟩

/-- C6: the great-circle distance is 0 from any point to itself and is
symmetric; two points one degree of latitude apart at the equator are
within 0.5% of 111195 m; and the hook's `calculateDistance` computes the
same function as `haversineMeters`. -/
theorem haversine_zero_symm_equator :
    (∀ p : GPSPoint, haversineMeters p p = 0) ∧
    (∀ a b : GPSPoint, haversineMeters a b = haversineMeters b a) ∧
    |haversineMeters ⟨0, 0⟩ ⟨1, 0⟩ - 111195| ≤ 0.005 * 111195 ∧
    (∀ p1 p2 : TrackPoint,
      calculateDistance p1 p2
        = haversineMeters ⟨p1.latitude, p1.longitude⟩ ⟨p2.latitude, p2.longitude⟩) := by
  refine ⟨?_, ?_, ?_, ?_⟩
  · intro p
    simp [haversineMeters, toRad, atan2, Real.arctan_zero]
  · intro a b
    simp only [haversineMeters, toRad]
    have hlat : Real.sin ((b.latitude - a.latitude) * Real.pi / 180 / 2)
        = -Real.sin ((a.latitude - b.latitude) * Real.pi / 180 / 2) := by
      rw [show (b.latitude - a.latitude) * Real.pi / 180 / 2
          = -((a.latitude - b.latitude) * Real.pi / 180 / 2) from by ring, Real.sin_neg]
    have hlon : Real.sin ((b.longitude - a.longitude) * Real.pi / 180 / 2)
        = -Real.sin ((a.longitude - b.longitude) * Real.pi / 180 / 2) := by
      rw [show (b.longitude - a.longitude) * Real.pi / 180 / 2
          = -((a.longitude - b.longitude) * Real.pi / 180 / 2) from by ring, Real.sin_neg]
    rw [hlat, hlon]
    ring_nf
  · have hXpos : (0 : ℝ) < Real.pi / 180 / 2 := by positivity
    have hXlt : Real.pi / 180 / 2 < Real.pi / 2 := by linarith [Real.pi_pos]
    have hsin_nonneg : 0 ≤ Real.sin (Real.pi / 180 / 2) :=
      Real.sin_nonneg_of_nonneg_of_le_pi (le_of_lt hXpos) (by linarith [Real.pi_pos])
    have hcos_pos : 0 < Real.cos (Real.pi / 180 / 2) :=
      Real.cos_pos_of_mem_Ioo ⟨by linarith [Real.pi_pos], hXlt⟩
    have hc2 : 1 - Real.sin (Real.pi / 180 / 2) * Real.sin (Real.pi / 180 / 2)
        = Real.cos (Real.pi / 180 / 2) * Real.cos (Real.pi / 180 / 2) := by
      nlinarith [Real.sin_sq_add_cos_sq (Real.pi / 180 / 2)]
    have hEval : haversineMeters ⟨0, 0⟩ ⟨1, 0⟩ = 6371e3 * 2 * (Real.pi / 180 / 2) := by
      simp only [haversineMeters, toRad]
      norm_num
      rw [Real.sqrt_mul_self hsin_nonneg, hc2, Real.sqrt_mul_self (le_of_lt hcos_pos)]
      simp only [atan2, if_pos hcos_pos]
      rw [← Real.tan_eq_sin_div_cos, Real.arctan_tan (by linarith) hXlt]
    rw [hEval, abs_le]
    constructor
    · nlinarith [Real.pi_gt_d6]
    · nlinarith [Real.pi_lt_d6]
  · intro p1 p2
    simp only [calculateDistance, haversineMeters, toRad]
    ring

end StrideUp
